import Mathlib

/-!
Verification development for the nixpkgs-hashes harvesting pipeline
(`src/data/src/nixpkgs-hashes/main.rs`).

Shallow embedding conventions:
- Rust `String` is Lean `String`; `Option<T>` is `Option T`.
- `std::time::Instant` and `Duration` are modelled as exact nanosecond
  counts (`Nat`).  Machine-width casts written in the source (`as u32`,
  `as u64`, arithmetic carried out in `u128`) are modelled by explicit
  `% 2 ^ w` reductions at exactly the places the source casts.
- Fallible code (panics via `unwrap`, `assert!`, `todo!`) is modelled by
  `Option`: `none` means the Rust code panics (aborting the run).
-/

namespace NixpkgsHashes

/-- Constant `STORE_PATHS_PER_QUERY` from the source (group size G). -/
def STORE_PATHS_PER_QUERY : Nat := 8

/-- Constant `MAX_CONCURRENT_STORE_QUERIES` from the source (pool size P). -/
def MAX_CONCURRENT_STORE_QUERIES : Nat := 8

/-- The `Hash` struct: one extracted hash value with its optional algorithm.
Equality is structural over both fields (the Rust struct derives
`PartialEq, Eq, Hash`). -/
structure Hash where
  hash : String
  algo : Option String
deriving DecidableEq, Repr

/-- Function `Hash::to_csv_record`: renders the record as
`"<hash>", "<algo>"` when the algorithm is present and
`"<hash>", null` when it is absent. -/
def Hash.to_csv_record (h : Hash) : String :=
  "\"" ++ h.hash ++ "\"" ++ ", " ++
    (match h.algo with
     | some algo => "\"" ++ algo ++ "\""
     | none => "null")

/-- Function `Hash::with_algo`: constructor that always sets a present algorithm. -/
def Hash.with_algo (hash : String) (algo : String) : Hash :=
  { hash := hash, algo := some algo }

/-- Struct `DerivationHashes`: the hash data extracted for one derivation. -/
structure DerivationHashes where
  env : Option Hash
  outputs : List (String × Hash)
deriving DecidableEq, Repr

/-- The `write_unique_hash` closure of the receiver task: insert into the
dedup set; when the insert is fresh, emit exactly one CSV line.  The
`HashSet` is modelled as a list of previously seen hashes (membership is
structural equality, as with the derived `Hash` instance in Rust). -/
def write_unique_hash (unique : List Hash) (h : Hash) : List Hash × List String :=
  if h ∈ unique then (unique, []) else (h :: unique, [Hash.to_csv_record h])

/-- The receiver's loop over a sequence of incoming hash records,
threading the dedup set and concatenating the emitted lines in order. -/
def aggregate_records (unique : List Hash) : List Hash → List String
  | [] => []
  | h :: rest =>
    ((write_unique_hash unique h).2) ++ aggregate_records (write_unique_hash unique h).1 rest

/-- The dedup set resulting from feeding a sequence of records to
`write_unique_hash`, starting from a given set. -/
def seen_after (unique : List Hash) (recs : List Hash) : List Hash :=
  recs.foldl (fun s h => (write_unique_hash s h).1) unique

/-- All persisted lines produced by the Aggregator for a whole run,
starting from the empty dedup set. -/
def persistedLines (recs : List Hash) : List String :=
  aggregate_records [] recs

lemma seen_after_nil (unique : List Hash) : seen_after unique [] = unique := rfl

lemma seen_after_cons (unique : List Hash) (h : Hash) (rest : List Hash) :
    seen_after unique (h :: rest) = seen_after (write_unique_hash unique h).1 rest := rfl

lemma mem_seen_after (recs : List Hash) :
    ∀ (unique : List Hash) (x : Hash), x ∈ seen_after unique recs ↔ x ∈ unique ∨ x ∈ recs := by
  induction recs with
  | nil => intro unique x; simp [seen_after_nil]
  | cons h rest ih =>
    intro unique x
    rw [seen_after_cons]
    rw [ih]
    unfold write_unique_hash
    by_cases hmem : h ∈ unique
    · simp only [if_pos hmem]
      constructor
      · rintro (hx | hx)
        · exact Or.inl hx
        · exact Or.inr (List.mem_cons_of_mem _ hx)
      · rintro (hx | hx)
        · exact Or.inl hx
        · rcases List.mem_cons.mp hx with rfl | hx
          · exact Or.inl hmem
          · exact Or.inr hx
    · simp only [if_neg hmem]
      constructor
      · rintro (hx | hx)
        · rcases List.mem_cons.mp hx with rfl | hx
          · exact Or.inr (List.mem_cons_self _ _)
          · exact Or.inl hx
        · exact Or.inr (List.mem_cons_of_mem _ hx)
      · rintro (hx | hx)
        · exact Or.inl (List.mem_cons_of_mem _ hx)
        · rcases List.mem_cons.mp hx with rfl | hx
          · exact Or.inl (List.mem_cons_self _ _)
          · exact Or.inr hx

lemma aggregate_records_append (xs : List Hash) :
    ∀ (unique : List Hash) (ys : List Hash),
      aggregate_records unique (xs ++ ys) =
        aggregate_records unique xs ++ aggregate_records (seen_after unique xs) ys := by
  induction xs with
  | nil => intro unique ys; simp [aggregate_records, seen_after_nil]
  | cons h rest ih =>
    intro unique ys
    simp only [List.cons_append, aggregate_records, seen_after_cons, List.append_eq]
    rw [ih]
    rw [List.append_assoc]

lemma aggregate_records_mem_spec (recs : List Hash) :
    ∀ (unique : List Hash) (l : String), l ∈ aggregate_records unique recs →
      ∃ h, h ∈ recs ∧ l = Hash.to_csv_record h := by
  induction recs with
  | nil => intro unique l hl; simp [aggregate_records] at hl
  | cons h rest ih =>
    intro unique l hl
    simp only [aggregate_records, List.mem_append] at hl
    rcases hl with hl | hl
    · unfold write_unique_hash at hl
      by_cases hmem : h ∈ unique
      · simp [if_pos hmem] at hl
      · simp only [if_neg hmem, List.mem_singleton] at hl
        exact ⟨h, List.mem_cons_self _ _, hl⟩
    · obtain ⟨h', hh', rfl⟩ := ih _ l hl
      exact ⟨h', List.mem_cons_of_mem _ hh', rfl⟩

lemma persistedLines_append_mem (recs : List Hash) (h : Hash) (hmem : h ∈ recs) :
    persistedLines (recs ++ [h]) = persistedLines recs := by
  unfold persistedLines
  rw [aggregate_records_append]
  have hseen : h ∈ seen_after [] recs := (mem_seen_after recs [] h).mpr (Or.inr hmem)
  simp [aggregate_records, write_unique_hash, hseen]

lemma persistedLines_append_not_mem (recs : List Hash) (h : Hash) (hmem : h ∉ recs) :
    persistedLines (recs ++ [h]) = persistedLines recs ++ [Hash.to_csv_record h] := by
  unfold persistedLines
  rw [aggregate_records_append]
  have hseen : h ∉ seen_after [] recs := by
    rw [mem_seen_after]
    simp [hmem]
  simp [aggregate_records, write_unique_hash, hseen]

/-- C1: the Aggregator persists exactly one line per structurally distinct
HashRecord, in first-seen order: (i) a record equal (value and algorithm)
to a previously processed one adds no line; (ii) a not-yet-seen record
appends exactly one line, its own CSV rendering, at the end (first-seen
order); (iii) two records sharing a value but differing in algorithm
(including present vs absent) yield two distinct persisted lines; (iv)
every persisted line is the CSV rendering of some processed record; and
the rendering is the hash value in double quotes, a comma and space, then
the algorithm in double quotes when present (v) or the bare token null
when absent (vi). -/
theorem C1_dedup_persistence :
    (∀ (recs : List Hash) (h : Hash), h ∈ recs →
      persistedLines (recs ++ [h]) = persistedLines recs) ∧
    (∀ (recs : List Hash) (h : Hash), h ∉ recs →
      persistedLines (recs ++ [h]) = persistedLines recs ++ [Hash.to_csv_record h]) ∧
    (∀ (v : String) (a₁ a₂ : Option String), a₁ ≠ a₂ →
      persistedLines [Hash.mk v a₁, Hash.mk v a₂] =
        [Hash.to_csv_record (Hash.mk v a₁), Hash.to_csv_record (Hash.mk v a₂)]) ∧
    (∀ (recs : List Hash) (l : String), l ∈ persistedLines recs →
      ∃ h, h ∈ recs ∧ l = Hash.to_csv_record h) ∧
    (∀ (v a : String), Hash.to_csv_record (Hash.mk v (some a)) =
      "\"" ++ v ++ "\", " ++ "\"" ++ a ++ "\"") ∧
    (∀ v : String, Hash.to_csv_record (Hash.mk v none) = "\"" ++ v ++ "\", null") := by
  refine ⟨persistedLines_append_mem, persistedLines_append_not_mem, ?_, ?_, ?_, ?_⟩
  · intro v a₁ a₂ hne
    have hne' : a₂ ≠ a₁ := hne.symm
    simp [persistedLines, aggregate_records, write_unique_hash, Hash.mk.injEq, hne']
  · exact fun recs l hl => aggregate_records_mem_spec recs [] l hl
  · intro v a
    apply String.ext
    simp [Hash.to_csv_record, String.data_append]
  · intro v
    apply String.ext
    simp [Hash.to_csv_record, String.data_append]

/-- Witness for C1 at concrete inputs: a repeated record adds no line, and
the same value under two different algorithm fields yields two lines. -/
theorem C1_dedup_witness :
    persistedLines ([Hash.mk "abc" (some "sha256")] ++ [Hash.mk "abc" (some "sha256")]) =
      persistedLines [Hash.mk "abc" (some "sha256")] ∧
    persistedLines [Hash.mk "abc" none, Hash.mk "abc" (some "sha256")] =
      [Hash.to_csv_record (Hash.mk "abc" none),
       Hash.to_csv_record (Hash.mk "abc" (some "sha256"))] :=
  ⟨C1_dedup_persistence.1 [Hash.mk "abc" (some "sha256")] (Hash.mk "abc" (some "sha256"))
     (by decide),
   C1_dedup_persistence.2.2.1 "abc" none (some "sha256") (by decide)⟩

/-- A JSON field as the extraction code distinguishes it: absent from the
object, present with the JSON value null, or present with a string value.
(A present non-string, non-null value makes the Rust code panic on
`as_str().unwrap()` exactly where a null does, so it is subsumed by
`null` here.) -/
inductive JField where
  | absent
  | null
  | str (s : String)
deriving DecidableEq, Repr

/-- Whether the field is present with a string value. -/
def JField.isStr : JField → Bool
  | .str _ => true
  | _ => false

/-- One entry of a derivation's `outputs` object: its optional `hash` and
`hashAlgo` fields. -/
structure OutputEntry where
  hash : JField
  hashAlgo : JField
deriving DecidableEq, Repr

/-- The parts of one derivation's JSON that `hashes_for_derivation` reads:
`env.outputHash`, `env.outputHashAlgo`, and the `outputs` object (absent or
non-object `outputs` makes the Rust code panic on `unwrap`, modelled by
`none`). -/
structure DrvEntry where
  envOutputHash : JField
  envOutputHashAlgo : JField
  outputs : Option (List (String × OutputEntry))
deriving DecidableEq, Repr

/-- The `filter_map` over the `outputs` object entries: an output with no
`hash` field contributes nothing; an output with a string `hash` requires a
string `hashAlgo` (otherwise the Rust `unwrap` panics, modelled by `none`)
and contributes one record via `Hash::with_algo`; a present non-string
`hash` value panics likewise. -/
def extractOutputs : List (String × OutputEntry) → Option (List (String × Hash))
  | [] => some []
  | (out_name, o) :: rest =>
    match o.hash with
    | .absent => extractOutputs rest
    | .null => none
    | .str h =>
      match o.hashAlgo with
      | .str a => (extractOutputs rest).map (fun tl => (out_name, Hash.with_algo h a) :: tl)
      | _ => none

/-- Reading `env.outputHash`: absent yields no fixed-output hash; a string
yields one; a present null panics (`as_str().unwrap()`). -/
def envHashOf : JField → Option (Option String)
  | .absent => some none
  | .null => none
  | .str s => some (some s)

/-- Reading `env.outputHashAlgo`: absent and JSON null both yield no
algorithm; a string yields one. -/
def envAlgoOf : JField → Option (Option String)
  | .absent => some none
  | .null => some none
  | .str s => some (some s)

/-- Function `hashes_for_derivation`: extracts the fixed-output hash (if any) from
the build environment and one record per output that carries a hash.
`none` models a panic (fatal for the whole Batch Query call). -/
def hashes_for_derivation (d : DrvEntry) : Option DerivationHashes :=
  match envHashOf d.envOutputHash, envAlgoOf d.envOutputHashAlgo, d.outputs with
  | some env_hash, some env_hash_algo, some outs =>
    (extractOutputs outs).map (fun outputs =>
      { env := env_hash.map (fun h => { hash := h, algo := env_hash_algo }),
        outputs := outputs })
  | _, _, _ => none

lemma extractOutputs_names (outs : List (String × OutputEntry)) :
    ∀ res, extractOutputs outs = some res →
      res.map Prod.fst = (outs.filter (fun p => p.2.hash.isStr)).map Prod.fst := by
  induction outs with
  | nil =>
    intro res hres
    simp [extractOutputs] at hres
    simp [← hres]
  | cons p rest ih =>
    intro res hres
    obtain ⟨out_name, o⟩ := p
    cases ho : o.hash with
    | absent =>
      simp only [extractOutputs, ho] at hres
      rw [List.filter_cons]
      simp [JField.isStr, ho, ih res hres]
    | null => simp [extractOutputs, ho] at hres
    | str h =>
      cases ha : o.hashAlgo with
      | str a =>
        simp only [extractOutputs, ho, ha, Option.map_eq_some'] at hres
        obtain ⟨tl, htl, rfl⟩ := hres
        rw [List.filter_cons]
        simp [JField.isStr, ho, ih tl htl]
      | absent => simp [extractOutputs, ho, ha] at hres
      | null => simp [extractOutputs, ho, ha] at hres

lemma extractOutputs_algo (outs : List (String × OutputEntry)) :
    ∀ res, extractOutputs outs = some res →
      ∀ x ∈ res, x.2.algo.isSome = true := by
  induction outs with
  | nil =>
    intro res hres x hx
    simp [extractOutputs] at hres
    subst hres
    simp at hx
  | cons p rest ih =>
    intro res hres x hx
    obtain ⟨out_name, o⟩ := p
    cases ho : o.hash with
    | absent =>
      simp only [extractOutputs, ho] at hres
      exact ih res hres x hx
    | null => simp [extractOutputs, ho] at hres
    | str h =>
      cases ha : o.hashAlgo with
      | str a =>
        simp only [extractOutputs, ho, ha, Option.map_eq_some'] at hres
        obtain ⟨tl, htl, rfl⟩ := hres
        rcases List.mem_cons.mp hx with rfl | hx
        · simp [Hash.with_algo]
        · exact ih tl htl x hx
      | absent => simp [extractOutputs, ho, ha] at hres
      | null => simp [extractOutputs, ho, ha] at hres

lemma hashes_for_derivation_outputs (d : DrvEntry) (r : DerivationHashes)
    (hr : hashes_for_derivation d = some r) :
    ∃ outs, d.outputs = some outs ∧ extractOutputs outs = some r.outputs := by
  unfold hashes_for_derivation at hr
  cases he : envHashOf d.envOutputHash with
  | none => rw [he] at hr; simp at hr
  | some env_hash =>
    cases ha : envAlgoOf d.envOutputHashAlgo with
    | none => rw [he, ha] at hr; simp at hr
    | some env_hash_algo =>
      cases hout : d.outputs with
      | none => rw [he, ha, hout] at hr; simp at hr
      | some outs =>
        rw [he, ha, hout] at hr
        simp only [Option.map_eq_some'] at hr
        obtain ⟨outputs, houtputs, rfl⟩ := hr
        exact ⟨outs, rfl, houtputs⟩

/-- C2: on the spec's concrete derivation entry (env.outputHash abc with
algo sha256; outputs out bearing hash xyz with algo sha256 and dev bearing
no hash), extraction yields exactly the fixed-output record (abc, sha256)
and the per-output record (xyz, sha256) for out, the dev output
contributing nothing; and in general, for every successful extraction, the
outputs included are exactly those that carry a hash value, in order. -/
theorem C2_batch_completeness :
    hashes_for_derivation
      { envOutputHash := JField.str "abc",
        envOutputHashAlgo := JField.str "sha256",
        outputs := some
          [("out", { hash := JField.str "xyz", hashAlgo := JField.str "sha256" }),
           ("dev", { hash := JField.absent, hashAlgo := JField.absent })] } =
      some
        { env := some { hash := "abc", algo := some "sha256" },
          outputs := [("out", { hash := "xyz", algo := some "sha256" })] } ∧
    (∀ (d : DrvEntry) (r : DerivationHashes) (outs : List (String × OutputEntry)),
      hashes_for_derivation d = some r → d.outputs = some outs →
      r.outputs.map Prod.fst = (outs.filter (fun p => p.2.hash.isStr)).map Prod.fst) := by
  constructor
  · rfl
  · intro d r outs hr houts
    obtain ⟨outs', houts', hext⟩ := hashes_for_derivation_outputs d r hr
    rw [houts] at houts'
    cases houts'
    exact extractOutputs_names outs r.outputs hext

/-- Witness for C2's general conjunct at a concrete entry: an entry whose
outputs object holds one hash-bearing and one hash-free output. -/
theorem C2_batch_witness :
    (DerivationHashes.outputs
        { env := none, outputs := [("bin", { hash := "h0", algo := some "sha1" })] }).map
        Prod.fst =
      (List.filter (fun p : String × OutputEntry => p.2.hash.isStr)
        [("bin", { hash := JField.str "h0", hashAlgo := JField.str "sha1" }),
         ("doc", { hash := JField.absent, hashAlgo := JField.absent })]).map Prod.fst :=
  C2_batch_completeness.2
    { envOutputHash := JField.absent,
      envOutputHashAlgo := JField.absent,
      outputs := some
        [("bin", { hash := JField.str "h0", hashAlgo := JField.str "sha1" }),
         ("doc", { hash := JField.absent, hashAlgo := JField.absent })] }
    { env := none, outputs := [("bin", { hash := "h0", algo := some "sha1" })] }
    [("bin", { hash := JField.str "h0", hashAlgo := JField.str "sha1" }),
     ("doc", { hash := JField.absent, hashAlgo := JField.absent })]
    (by rfl) (by rfl)

/-- C10: every per-output record produced by a successful extraction has a
present algorithm; a record with an absent algorithm can only be the
fixed-output (env) record. -/
theorem C10_output_algo_invariant :
    ∀ (d : DrvEntry) (r : DerivationHashes), hashes_for_derivation d = some r →
      ∀ x ∈ r.outputs, x.2.algo.isSome = true := by
  intro d r hr x hx
  obtain ⟨outs, _, hext⟩ := hashes_for_derivation_outputs d r hr
  exact extractOutputs_algo outs r.outputs hext x hx

/-- Witness for C10 at a concrete entry with one per-output record. -/
theorem C10_output_algo_witness :
    (Hash.mk "h0" (some "sha1")).algo.isSome = true :=
  C10_output_algo_invariant
    { envOutputHash := JField.absent,
      envOutputHashAlgo := JField.absent,
      outputs := some [("bin", { hash := JField.str "h0", hashAlgo := JField.str "sha1" })] }
    { env := none, outputs := [("bin", { hash := "h0", algo := some "sha1" })] }
    (by rfl)
    ("bin", { hash := "h0", algo := some "sha1" })
    (by simp)

/-- The `TimingBucket<SCALE>` rate-estimator state.  `Instant` and
`Duration` values are exact nanosecond counts. -/
structure TimingBucket where
  last_total : Nat
  last_update : Nat
  since_start : Nat
  since_mark : Nat
deriving DecidableEq, Repr

/-- Constructor `TimingBucket::new(start)`. -/
def TimingBucket.new (start : Nat) : TimingBucket :=
  { last_total := 0, last_update := start, since_start := 0, since_mark := 0 }

/-- Function `TimingBucket::marks_passed`. -/
def TimingBucket.marks_passed (SCALE : Nat) (b : TimingBucket) : Nat :=
  b.last_total / SCALE

/-- Function `TimingBucket::update`.  The source's `assert!` preconditions
(`curr_total >= last_total`, `now >= last_update`) appear as hypotheses of
the theorems below; subtraction here is `Nat` subtraction.  The boundary
branch computes `attributed` in `u128` (product reduced `% 2 ^ 128`) and
stores the new `since_mark` through `Duration::from_nanos(… as u64)`,
i.e. reduced `% 2 ^ 64`, exactly as the source casts. -/
def TimingBucket.update (SCALE : Nat) (b : TimingBucket) (now curr_total : Nat) :
    TimingBucket :=
  let delta := curr_total - b.last_total
  let elapsed := now - b.last_update
  let since_start := b.since_start + elapsed
  let last_mark := b.last_total / SCALE
  let curr_mark := curr_total / SCALE
  if last_mark < curr_mark then
    let progress := curr_total % SCALE
    let complete := delta - progress
    let attributed := elapsed * complete % 2 ^ 128 / delta
    { last_total := curr_total, last_update := now,
      since_start := since_start, since_mark := (elapsed - attributed) % 2 ^ 64 }
  else
    { last_total := curr_total, last_update := now,
      since_start := since_start, since_mark := b.since_mark + elapsed }

/-- Function `TimingBucket::average_rate`: absent when no mark has passed; otherwise
`(since_start - since_mark) / (marks as u32)` — the source divides the
`Duration` by `marks as u32`, so the divisor is reduced `% 2 ^ 32`. -/
def TimingBucket.average_rate (SCALE : Nat) (b : TimingBucket) : Option Nat :=
  let marks := TimingBucket.marks_passed SCALE b
  if marks = 0 then none
  else some ((b.since_start - b.since_mark) / (marks % 2 ^ 32))

/-- Function `TimingBucket::average_rate_predictive`: absent when `last_total` is
zero; otherwise `since_start * SCALE / last_total` computed in `u128`
(product reduced `% 2 ^ 128`) and stored through
`Duration::from_nanos(… as u64)`, i.e. reduced `% 2 ^ 64`. -/
def TimingBucket.average_rate_predictive (SCALE : Nat) (b : TimingBucket) : Option Nat :=
  if b.last_total = 0 then none
  else some (b.since_start * SCALE % 2 ^ 128 / b.last_total % 2 ^ 64)

/-- C3 counterexample: an update from total 999 to 1999 (SCALE 1000,
crossing mark 1) over 2^65 nanoseconds.  The claim's formula gives
elapsed − elapsed × 1 / 1000 ≈ 3.69 × 10^19 ns, which exceeds 2^64 − 1;
the source stores it through `Duration::from_nanos(since_mark as u64)`,
truncating it, so timeSinceLastMark is not set to the claimed value. -/
theorem C3_boundary_counterexample :
    (999 : Nat) ≤ 1999 ∧ (0 : Nat) ≤ 2 ^ 65 ∧ (999 : Nat) / 1000 < 1999 / 1000 ∧
    (TimingBucket.update 1000
        { last_total := 999, last_update := 0, since_start := 0, since_mark := 0 }
        (2 ^ 65) 1999).since_mark ≠
      2 ^ 65 - 2 ^ 65 * ((1999 - 999) - 1999 % 1000) / (1999 - 999) := by
  decide

/-- C3 (amended): for every update with newTotal ≥ lastTotal and
now ≥ lastUpdateTime: when the update crosses at least one scale boundary,
timeSinceLastMark is set (not added) to
elapsed − elapsed × (delta − newTotal mod SCALE) / delta, provided the
intermediate product fits in 128 bits and the resulting nanosecond count
fits in 64 bits (beyond which the source's casts truncate); otherwise
elapsed is added to timeSinceLastMark.  Starting with lastTotal = 950 and
timeSinceStart = 0 at SCALE = 1000, an update to total 1050 over one
time-unit (10^9 ns) sets timeSinceLastMark to half a unit and makes
averageRate half a unit. -/
theorem C3_boundary_amended :
    (∀ (SCALE : Nat) (b : TimingBucket) (now curr_total : Nat),
      b.last_total ≤ curr_total → b.last_update ≤ now →
      b.last_total / SCALE < curr_total / SCALE →
      (now - b.last_update) * ((curr_total - b.last_total) - curr_total % SCALE) < 2 ^ 128 →
      (now - b.last_update) -
          (now - b.last_update) * ((curr_total - b.last_total) - curr_total % SCALE) /
            (curr_total - b.last_total) < 2 ^ 64 →
      (TimingBucket.update SCALE b now curr_total).since_mark =
        (now - b.last_update) -
          (now - b.last_update) * ((curr_total - b.last_total) - curr_total % SCALE) /
            (curr_total - b.last_total)) ∧
    (∀ (SCALE : Nat) (b : TimingBucket) (now curr_total : Nat),
      ¬ b.last_total / SCALE < curr_total / SCALE →
      (TimingBucket.update SCALE b now curr_total).since_mark =
        b.since_mark + (now - b.last_update)) ∧
    ((TimingBucket.update 1000
        { last_total := 950, last_update := 0, since_start := 0, since_mark := 0 }
        1000000000 1050).since_mark = 500000000 ∧
      TimingBucket.average_rate 1000
        (TimingBucket.update 1000
          { last_total := 950, last_update := 0, since_start := 0, since_mark := 0 }
          1000000000 1050) = some 500000000) := by
  refine ⟨?_, ?_, by decide, by decide⟩
  · intro SCALE b now curr_total _ _ hcross hprod hfit
    simp only [TimingBucket.update, if_pos hcross]
    rw [Nat.mod_eq_of_lt hprod, Nat.mod_eq_of_lt hfit]
  · intro SCALE b now curr_total hcross
    simp only [TimingBucket.update, if_neg hcross]

/-- Witness for C3 (amended) at the spec's concrete inputs: the boundary
branch at 950 → 1050 over 10^9 ns, and the non-crossing branch at
100 → 200 over 7 ns. -/
theorem C3_boundary_witness :
    (TimingBucket.update 1000
        { last_total := 950, last_update := 0, since_start := 0, since_mark := 0 }
        1000000000 1050).since_mark =
      1000000000 - 1000000000 * ((1050 - 950) - 1050 % 1000) / (1050 - 950) ∧
    (TimingBucket.update 1000
        { last_total := 100, last_update := 0, since_start := 0, since_mark := 3 }
        7 200).since_mark = 3 + (7 - 0) :=
  ⟨C3_boundary_amended.1 1000
      { last_total := 950, last_update := 0, since_start := 0, since_mark := 0 }
      1000000000 1050 (by decide) (by decide) (by decide) (by decide) (by decide),
   C3_boundary_amended.2.1 1000
      { last_total := 100, last_update := 0, since_start := 0, since_mark := 3 }
      7 200 (by decide)⟩

/-- C4 counterexample: a state with lastTotal = 4294967297000 at
SCALE = 1000, so marksPassed = 2^32 + 1.  The source divides by
`marks as u32` = 1, returning timeSinceStart − timeSinceLastMark itself
(2^33 ns) rather than the claimed quotient by marksPassed (which is 1). -/
theorem C4_rates_counterexample :
    TimingBucket.average_rate 1000
      { last_total := 4294967297000, last_update := 0,
        since_start := 8589934592, since_mark := 0 } ≠
      some ((8589934592 - 0) / (4294967297000 / 1000)) := by
  decide

/-- C4 (amended): averageRate is absent exactly when marksPassed is zero
and otherwise equals (timeSinceStart − timeSinceLastMark) divided by
marksPassed provided marksPassed < 2^32 (the source truncates the divisor
to 32 bits); predictiveRate is absent exactly when lastTotal is zero and
otherwise equals timeSinceStart × SCALE / lastTotal provided the product
fits in 128 bits and the quotient in 64 bits (the source's casts truncate
beyond those widths). -/
theorem C4_rates_amended :
    (∀ (SCALE : Nat) (b : TimingBucket),
      TimingBucket.average_rate SCALE b = none ↔ TimingBucket.marks_passed SCALE b = 0) ∧
    (∀ (SCALE : Nat) (b : TimingBucket),
      TimingBucket.marks_passed SCALE b ≠ 0 → TimingBucket.marks_passed SCALE b < 2 ^ 32 →
      TimingBucket.average_rate SCALE b =
        some ((b.since_start - b.since_mark) / TimingBucket.marks_passed SCALE b)) ∧
    (∀ (SCALE : Nat) (b : TimingBucket),
      TimingBucket.average_rate_predictive SCALE b = none ↔ b.last_total = 0) ∧
    (∀ (SCALE : Nat) (b : TimingBucket),
      b.last_total ≠ 0 → b.since_start * SCALE < 2 ^ 128 →
      b.since_start * SCALE / b.last_total < 2 ^ 64 →
      TimingBucket.average_rate_predictive SCALE b =
        some (b.since_start * SCALE / b.last_total)) := by
  refine ⟨?_, ?_, ?_, ?_⟩
  · intro SCALE b
    unfold TimingBucket.average_rate
    by_cases hm : TimingBucket.marks_passed SCALE b = 0 <;> simp [hm]
  · intro SCALE b hm hlt
    unfold TimingBucket.average_rate
    rw [if_neg hm, Nat.mod_eq_of_lt hlt]
  · intro SCALE b
    unfold TimingBucket.average_rate_predictive
    by_cases hz : b.last_total = 0 <;> simp [hz]
  · intro SCALE b hz hprod hfit
    unfold TimingBucket.average_rate_predictive
    rw [if_neg hz, Nat.mod_eq_of_lt hprod, Nat.mod_eq_of_lt hfit]

/-- Witness for C4 (amended) at a concrete state: lastTotal 2000 at
SCALE 1000 with 700 ns since start and 100 ns since the last mark. -/
theorem C4_rates_witness :
    TimingBucket.average_rate 1000
        { last_total := 2000, last_update := 0, since_start := 700, since_mark := 100 } =
      some ((700 - 100) /
        TimingBucket.marks_passed 1000
          { last_total := 2000, last_update := 0, since_start := 700, since_mark := 100 }) ∧
    TimingBucket.average_rate_predictive 1000
        { last_total := 2000, last_update := 0, since_start := 700, since_mark := 100 } =
      some (700 * 1000 / 2000) :=
  ⟨C4_rates_amended.2.1 1000
      { last_total := 2000, last_update := 0, since_start := 700, since_mark := 100 }
      (by decide) (by decide),
   C4_rates_amended.2.2.2 1000
      { last_total := 2000, last_update := 0, since_start := 700, since_mark := 100 }
      (by decide) (by decide) (by decide)⟩

/-- The dispatcher loop over an (already fully successful) finite path
source: each iteration pulls up to G paths into a batch; an empty batch
breaks the loop without dispatching; a non-empty batch is dispatched as
one group and the loop continues on the remaining paths. -/
def dispatcher_groups (G : Nat) (paths : List String) : List (List String) :=
  if h : (paths.take G).isEmpty then []
  else paths.take G :: dispatcher_groups G (paths.drop G)
termination_by paths.length
decreasing_by
  rw [List.isEmpty_iff, List.take_eq_nil_iff] at h
  push_neg at h
  have hlen : 0 < paths.length := List.length_pos.mpr h.2
  have hG : 0 < G := Nat.pos_of_ne_zero h.1
  simp only [List.length_drop]
  omega

lemma dispatcher_groups_nil (G : Nat) : dispatcher_groups G [] = [] := by
  rw [dispatcher_groups]
  simp

lemma dispatcher_groups_zero (paths : List String) : dispatcher_groups 0 paths = [] := by
  rw [dispatcher_groups]
  simp

lemma dispatcher_groups_cons (G : Nat) (paths : List String) (hG : 0 < G)
    (hne : paths ≠ []) :
    dispatcher_groups G paths = paths.take G :: dispatcher_groups G (paths.drop G) := by
  rw [dispatcher_groups]
  rw [dif_neg]
  rw [List.isEmpty_iff, List.take_eq_nil_iff]
  push_neg
  exact ⟨Nat.pos_iff_ne_zero.mp hG, hne⟩

lemma dispatcher_groups_join (G : Nat) (hG : 0 < G) (paths : List String) :
    (dispatcher_groups G paths).flatten = paths := by
  induction paths using dispatcher_groups.induct G with
  | case1 paths h =>
    rw [List.isEmpty_iff, List.take_eq_nil_iff] at h
    rcases h with h | h
    · omega
    · subst h
      rw [dispatcher_groups_nil]
      rfl
  | case2 paths h ih =>
    rw [dispatcher_groups, dif_neg h, List.flatten_cons, ih]
    exact List.take_append_drop G paths

lemma dispatcher_groups_sizes (G : Nat) (hG : 0 < G) (paths : List String) :
    ∀ g ∈ dispatcher_groups G paths, g ≠ [] ∧ g.length ≤ G := by
  induction paths using dispatcher_groups.induct G with
  | case1 paths h =>
    rw [dispatcher_groups, dif_pos h]
    simp
  | case2 paths h ih =>
    rw [dispatcher_groups, dif_neg h]
    intro g hg
    rcases List.mem_cons.mp hg with rfl | hg
    · refine ⟨?_, by simp⟩
      intro hc
      exact h (by rw [List.isEmpty_iff]; exact hc)
    · exact ih g hg

lemma dispatcher_groups_full (G : Nat) (hG : 0 < G) (paths : List String) :
    ∀ g ∈ (dispatcher_groups G paths).dropLast, g.length = G := by
  induction paths using dispatcher_groups.induct G with
  | case1 paths h =>
    rw [dispatcher_groups, dif_pos h]
    simp
  | case2 paths h ih =>
    rw [dispatcher_groups, dif_neg h]
    intro g hg
    cases hrec : dispatcher_groups G (paths.drop G) with
    | nil =>
      rw [hrec] at hg
      simp at hg
    | cons g0 gs =>
      rw [hrec, List.dropLast_cons_of_ne_nil (List.cons_ne_nil g0 gs)] at hg
      rcases List.mem_cons.mp hg with rfl | hg
      · have hdrop_ne : paths.drop G ≠ [] := by
          intro hcontra
          rw [hcontra, dispatcher_groups_nil] at hrec
          exact List.cons_ne_nil g0 gs hrec.symm
        have hle : G ≤ paths.length := by
          by_contra hlt
          push_neg at hlt
          exact hdrop_ne (List.drop_eq_nil_of_le (Nat.le_of_lt hlt))
        simp only [List.length_take]
        omega
      · rw [hrec] at ih
        exact ih g hg

/-- C5: the dispatcher forms consecutive groups of exactly G = 8 paths
(their concatenation, in order, is the whole source; every dispatched
group except possibly the last is full; a final partial group is
dispatched only when non-empty, so no group is empty), and on exactly 8,
9, and 0 pending paths it produces one group of 8; one group of 8 plus
one group of 1; and no groups at all. -/
theorem C5_group_boundary :
    (∀ paths : List String, (dispatcher_groups 8 paths).flatten = paths) ∧
    (∀ paths : List String, ∀ g ∈ dispatcher_groups 8 paths, g ≠ [] ∧ g.length ≤ 8) ∧
    (∀ paths : List String, ∀ g ∈ (dispatcher_groups 8 paths).dropLast, g.length = 8) ∧
    (dispatcher_groups 8 (List.replicate 8 "p")).map List.length = [8] ∧
    (dispatcher_groups 8 (List.replicate 9 "p")).map List.length = [8, 1] ∧
    dispatcher_groups 8 [] = [] := by
  refine ⟨fun paths => dispatcher_groups_join 8 (by omega) paths,
          fun paths => dispatcher_groups_sizes 8 (by omega) paths,
          fun paths => dispatcher_groups_full 8 (by omega) paths, ?_, ?_, ?_⟩
  · rw [dispatcher_groups_cons 8 _ (by omega) (by simp)]
    norm_num [dispatcher_groups_nil]
  · rw [dispatcher_groups_cons 8 _ (by omega) (by simp)]
    rw [show (List.replicate 9 "p").drop 8 = List.replicate 1 "p" by simp [List.drop_replicate]]
    rw [dispatcher_groups_cons 8 _ (by omega) (by simp)]
    norm_num [dispatcher_groups_nil]
  · exact dispatcher_groups_nil 8

/-- Witness for C5's group-shape conjuncts at a concrete 9-path source. -/
theorem C5_group_witness :
    (dispatcher_groups 8 (List.replicate 9 "p")).flatten = List.replicate 9 "p" ∧
    (∀ g ∈ (dispatcher_groups 8 (List.replicate 9 "p")).dropLast, g.length = 8) :=
  ⟨C5_group_boundary.1 (List.replicate 9 "p"),
   C5_group_boundary.2.2.1 (List.replicate 9 "p")⟩

/-- One line of the path evaluator's standard output, as the filter in
`nix_eval_jobs` distinguishes it: a line bearing a string `drvPath` field,
a line bearing an `error` field, or a line matching neither shape (the
latter makes the `assert!` in the filter fail, aborting the run, just as a
non-string `drvPath` value fails the adjacent `unwrap`). -/
inductive EvalLine where
  | drvLine (path : String)
  | errLine
  | badLine
deriving DecidableEq, Repr

/-- The `filter_map` over evaluator output lines: a `drvPath` line yields
exactly one path, an `error` line yields nothing and the sequence
continues, any other line fails the sequence (`none`). -/
def drv_paths_of_lines : List EvalLine → Option (List String)
  | [] => some []
  | .drvLine s :: rest => (drv_paths_of_lines rest).map (fun tl => s :: tl)
  | .errLine :: rest => drv_paths_of_lines rest
  | .badLine :: _ => none

/-- C6: a line bearing a drvPath field yields exactly one produced path, a
line bearing an error field yields nothing without terminating the
sequence (so a later valid drvPath line is still produced), and a line
matching neither shape fails the sequence; concretely, an error line
followed by a drvPath line produces exactly that one path. -/
theorem C6_line_protocol :
    (∀ (s : String) (rest : List EvalLine),
      drv_paths_of_lines (EvalLine.drvLine s :: rest) =
        (drv_paths_of_lines rest).map (fun tl => s :: tl)) ∧
    (∀ rest : List EvalLine,
      drv_paths_of_lines (EvalLine.errLine :: rest) = drv_paths_of_lines rest) ∧
    (∀ rest : List EvalLine,
      drv_paths_of_lines (EvalLine.badLine :: rest) = none) ∧
    drv_paths_of_lines [EvalLine.errLine, EvalLine.drvLine "x"] = some ["x"] := by
  refine ⟨fun s rest => rfl, fun rest => rfl, fun rest => rfl, rfl⟩

/-- A subprocess exit status: exited with a code, or killed by a signal. -/
inductive ExitKind where
  | code (n : Nat)
  | signal (n : Nat)
deriving DecidableEq, Repr

/-- Method `ExitStatus::success()`: true exactly for exit code zero (a
signal-terminated process has no code and is not a success). -/
def ExitKind.success : ExitKind → Bool
  | .code 0 => true
  | _ => false

/-- The `check_status` closure in `nix_eval_jobs`: a successful status
yields no error, any other status yields the fatal `ExitStatusError`
carrying it. -/
def check_status (st : ExitKind) : Option ExitKind :=
  if st.success then none else some st

/-- One observable step of the process-as-stream unfold. -/
inductive SrcEvent where
  | tryCheck
  | readLine
  | waitStatus
deriving DecidableEq, Repr

/-- The subprocess as the unfold sees it: `earlyExit k` is what the
non-blocking `try_status` reports at the k-th step (already exited with
this status, or still running), `lines` the remaining output lines, and
`finalStatus` the status the blocking wait returns after the lines end. -/
structure ProcRun where
  earlyExit : Nat → Option ExitKind
  lines : List String
  finalStatus : ExitKind

/-- The `try_unfold` state machine of `nix_eval_jobs`, instrumented with
the sequence of effects it performs: each step first checks `try_status`
without blocking; if the process has already exited its status is checked
and the stream ends (with a fatal error when unsuccessful); otherwise one
line is read; when the lines are exhausted the blocking `status` wait is
performed once and its result checked the same way.  Returns the produced
paths, the terminal error (if any), and the effect trace. -/
def run_nix_eval_jobs (early : Nat → Option ExitKind) (final : ExitKind) :
    Nat → List String → List String × Option ExitKind × List SrcEvent
  | k, [] =>
    match early k with
    | some st => ([], check_status st, [SrcEvent.tryCheck])
    | none => ([], check_status final, [SrcEvent.tryCheck, SrcEvent.waitStatus])
  | k, l :: rest =>
    match early k with
    | some st => ([], check_status st, [SrcEvent.tryCheck])
    | none =>
      let r := run_nix_eval_jobs early final (k + 1) rest
      (l :: r.1, r.2.1, SrcEvent.tryCheck :: SrcEvent.readLine :: r.2.2)

/-- The whole Path Source run of a process. -/
def nix_eval_jobs_run (p : ProcRun) : List String × Option ExitKind × List SrcEvent :=
  run_nix_eval_jobs p.earlyExit p.finalStatus 0 p.lines

lemma run_nix_eval_jobs_no_early (final : ExitKind) (lines : List String) :
    ∀ (early : Nat → Option ExitKind), (∀ k, early k = none) → ∀ k : Nat,
      run_nix_eval_jobs early final k lines =
        (lines, check_status final,
         (lines.map (fun _ => [SrcEvent.tryCheck, SrcEvent.readLine])).flatten ++
           [SrcEvent.tryCheck, SrcEvent.waitStatus]) := by
  induction lines with
  | nil =>
    intro early hearly k
    simp [run_nix_eval_jobs, hearly k]
  | cons l rest ih =>
    intro early hearly k
    simp only [run_nix_eval_jobs, hearly k, ih early hearly (k + 1), List.map_cons,
      List.flatten_cons]
    rfl

/-- C7: in a run where the non-blocking exit probe never reports an early
exit, the unfold's effect trace is exactly one non-blocking check before
each line read, then one final non-blocking check followed by exactly one
blocking exit-status wait after the lines end (so the blocking wait occurs
exactly once); every line is produced as a path, in order; and the
terminal item is the graceful end for a success status and the fatal
ExitStatusError for an exit code other than zero or a signal-terminated
status, even though all paths were already produced. -/
theorem C7_source_exit_protocol :
    ∀ p : ProcRun, (∀ k, p.earlyExit k = none) →
      nix_eval_jobs_run p =
        (p.lines, check_status p.finalStatus,
         (p.lines.map (fun _ => [SrcEvent.tryCheck, SrcEvent.readLine])).flatten ++
           [SrcEvent.tryCheck, SrcEvent.waitStatus]) ∧
      ((nix_eval_jobs_run p).2.2.count SrcEvent.waitStatus = 1 ∧
       (nix_eval_jobs_run p).2.2.count SrcEvent.readLine = p.lines.length) ∧
      (p.finalStatus.success = true → (nix_eval_jobs_run p).2.1 = none) ∧
      (p.finalStatus.success = false →
        (nix_eval_jobs_run p).2.1 = some p.finalStatus ∧
        (nix_eval_jobs_run p).1 = p.lines) := by
  intro p hearly
  have hrun := run_nix_eval_jobs_no_early p.finalStatus p.lines p.earlyExit hearly 0
  have hmain : nix_eval_jobs_run p =
      (p.lines, check_status p.finalStatus,
       (p.lines.map (fun _ => [SrcEvent.tryCheck, SrcEvent.readLine])).flatten ++
         [SrcEvent.tryCheck, SrcEvent.waitStatus]) := hrun
  refine ⟨hmain, ⟨?_, ?_⟩, ?_, ?_⟩
  · rw [hmain]
    induction p.lines with
    | nil => rfl
    | cons l rest ih => simpa using ih
  · rw [hmain]
    induction p.lines with
    | nil => rfl
    | cons l rest ih => simpa using ih
  · intro hsucc
    rw [hmain]
    simp [check_status, hsucc]
  · intro hfail
    rw [hmain]
    simp [check_status, hfail]

/-- Witness for C7: a process that streams two lines, is never seen to
exit early by the non-blocking probe, and finally exits with code 1. -/
theorem C7_source_exit_witness :
    nix_eval_jobs_run
        { earlyExit := fun _ => none, lines := ["a", "b"], finalStatus := ExitKind.code 1 } =
      (["a", "b"], check_status (ExitKind.code 1),
       ((["a", "b"].map (fun _ => [SrcEvent.tryCheck, SrcEvent.readLine])).flatten ++
         [SrcEvent.tryCheck, SrcEvent.waitStatus])) :=
  (C7_source_exit_protocol
    { earlyExit := fun _ => none, lines := ["a", "b"], finalStatus := ExitKind.code 1 }
    (fun _ => rfl)).1

/-- Function `collect_hashes_for_many_derivations`, given the metadata subprocess's
exit status and its parsed stdout (an object keyed by derivation path): a
non-success status hits the source's `todo!()`, which panics and aborts
the whole run — modelled as `none`; otherwise each entry is extracted
(`unwrap`, so an extraction panic is also fatal for the call). -/
def collect_hashes_for_many_derivations (status : ExitKind)
    (stdout : List (String × DrvEntry)) : Option (List (String × DerivationHashes)) :=
  if status.success then
    stdout.mapM (fun p => (hashes_for_derivation p.2).map (fun h => (p.1, h)))
  else none

/-- C8: whenever the metadata subprocess exits unsuccessfully, the Batch
Query call never returns an Ok mapping — it aborts fatally (the source's
todo-panic), with no per-item skip and no retry. -/
theorem C8_batch_exit_fatal :
    ∀ (status : ExitKind) (stdout : List (String × DrvEntry)),
      status.success = false →
      collect_hashes_for_many_derivations status stdout = none := by
  intro status stdout hfail
  simp [collect_hashes_for_many_derivations, hfail]

/-- Witness for C8: exit code 1 with a non-empty, perfectly parseable
stdout still yields no Ok mapping. -/
theorem C8_batch_exit_witness :
    collect_hashes_for_many_derivations (ExitKind.code 1)
      [("/nix/store/x.drv",
        { envOutputHash := JField.str "abc", envOutputHashAlgo := JField.str "sha256",
          outputs := some [] })] = none :=
  C8_batch_exit_fatal (ExitKind.code 1)
    [("/nix/store/x.drv",
      { envOutputHash := JField.str "abc", envOutputHashAlgo := JField.str "sha256",
        outputs := some [] })]
    (by decide)

end NixpkgsHashes
